import Mathlib

/-!
# Verification of `scripts/prompt-builder.py` (gemini-coder)

A shallow embedding, in Lean 4, of the algorithmic core of the
`prompt-builder.py` indexing / retrieval script, together with proofs of the
specified properties.

Conventions used throughout:

* Python `float` values that are only ever created, compared and added
  (timestamps, distances, scores) are modelled as rationals (`ℚ`);
  every arithmetic operation performed on them by the script
  (`1.0 / (d + 1e-6)`, subtraction of small integers, `+`, `<`) is exact on
  the values the script manipulates, so `ℚ` is a faithful carrier.
* Fallible calls into external services (the Ollama embedding backend) are
  modelled as an explicit function argument returning `Option`.
* The ChromaDB collection is modelled as the list of its entries
  (id and `source_file` metadata), which is all the script observes of it
  (`count`, `delete(where=...)`, `add`).
-/

namespace PromptBuilder

/-! ## Python string primitives

`str.strip()` with no argument removes leading and trailing whitespace; on
the ASCII strings manipulated here the relevant whitespace characters are
space, tab, newline, carriage return, vertical tab and form feed.
`"\n".join(...)` is `String.intercalate "\n"`. -/

/-- The characters Python's `str.strip()` removes (ASCII whitespace). -/
def isPySpace (c : Char) : Bool :=
  c = ' ' || c = '\t' || c = '\n' || c = '\r' || c = '\x0b' || c = '\x0c'

/-- Python `s.strip()`: drop leading and trailing whitespace. -/
def pyStrip (s : String) : String :=
  String.mk (((s.data.dropWhile isPySpace).reverse.dropWhile isPySpace).reverse)

/-! ## The chunker (`chunk_code_by_lines`, lines 114-147)

The input `content` is split by Python into a list of lines
(`content.splitlines()`); the embedding takes that line list directly.
A chunk is the dict built at lines 131-137; `current_chunk_start_line` and
`i` are initialised together and incremented together in every branch of the
loop, so the embedding keeps only `i`. -/

/-- One chunk dict as built by `chunk_code_by_lines` (lines 131-137):
keys `text`, `file_path`, `type`, `start_line`, `end_line`. -/
structure Chunk where
  text : String
  file_path : String
  type : String
  start_line : Nat
  end_line : Nat
deriving DecidableEq, Repr

/-- The `while i < len(lines)` loop of `chunk_code_by_lines` (lines 122-145),
with an explicit fuel argument.  Every iteration of the Python loop advances
`i` by at least one except when `max_lines = 0` and `min_lines > 0` (where
the Python loop never terminates), so fuel `lines.length + 1` reproduces the
Python behaviour on every terminating input. -/
def chunkLoop (lines : List String) (file_path_str : String)
    (min_lines max_lines overlap_lines : Nat) : Nat → Nat → List Chunk
  | 0, _ => []
  | fuel + 1, i =>
    if i < lines.length then
      -- chunk_lines = lines[i : i + max_lines]
      let chunk_lines := (lines.drop i).take max_lines
      -- if len(chunk_lines) < min_lines and i + len(chunk_lines) < len(lines)
      if chunk_lines.length < min_lines ∧ i + chunk_lines.length < lines.length then
        chunkLoop lines file_path_str min_lines max_lines overlap_lines fuel
          (i + chunk_lines.length)
      else
        -- chunk_text = "\n".join(chunk_lines).strip()
        let chunk_text := pyStrip (String.intercalate "\n" chunk_lines)
        let emitted : List Chunk :=
          if chunk_text = "" then []
          else [⟨chunk_text, file_path_str, "line_block", i, i + chunk_lines.length - 1⟩]
        -- if i + len(chunk_lines) >= len(lines): break
        if lines.length ≤ i + chunk_lines.length then emitted
        else
          emitted ++
            chunkLoop lines file_path_str min_lines max_lines overlap_lines fuel
              (i + max 1 (max_lines - overlap_lines))
    else []

/-- Embedding of `chunk_code_by_lines` (lines 114-147), with
`lines = content.splitlines()` already
performed.  The `if not lines: return []` guard coincides with the loop
guard at `i = 0`. -/
def chunk_code_by_lines (lines : List String) (file_path_str : String)
    (min_lines max_lines overlap_lines : Nat) : List Chunk :=
  chunkLoop lines file_path_str min_lines max_lines overlap_lines (lines.length + 1) 0

/-- The fallback-chunker constants of lines 49-51:
`MIN_CHUNK_SIZE_LINES_FALLBACK`, `MAX_CHUNK_SIZE_LINES_FALLBACK`,
`OVERLAP_LINES_FALLBACK`. -/
def MIN_CHUNK_SIZE_LINES_FALLBACK : Nat := 5

/-- Constant `MAX_CHUNK_SIZE_LINES_FALLBACK` (line 50). -/
def MAX_CHUNK_SIZE_LINES_FALLBACK : Nat := 30

/-- Constant `OVERLAP_LINES_FALLBACK` (line 51). -/
def OVERLAP_LINES_FALLBACK : Nat := 3

/-- The same loop with the mid-stream skip branch (lines 124-127) removed:
every window whose stripped text is non-empty is emitted.  Used to state
that the skip branch is unreachable when `min_lines ≤ max_lines`. -/
def chunkNoSkipLoop (lines : List String) (file_path_str : String)
    (max_lines overlap_lines : Nat) : Nat → Nat → List Chunk
  | 0, _ => []
  | fuel + 1, i =>
    if i < lines.length then
      let chunk_lines := (lines.drop i).take max_lines
      let chunk_text := pyStrip (String.intercalate "\n" chunk_lines)
      let emitted : List Chunk :=
        if chunk_text = "" then []
        else [⟨chunk_text, file_path_str, "line_block", i, i + chunk_lines.length - 1⟩]
      if lines.length ≤ i + chunk_lines.length then emitted
      else
        emitted ++
          chunkNoSkipLoop lines file_path_str max_lines overlap_lines fuel
            (i + max 1 (max_lines - overlap_lines))
    else []

/-- Variant of `chunk_code_by_lines` without the skip branch. -/
def chunkNoSkip (lines : List String) (file_path_str : String)
    (max_lines overlap_lines : Nat) : List Chunk :=
  chunkNoSkipLoop lines file_path_str max_lines overlap_lines (lines.length + 1) 0

/-! ## The embedding client (`get_ollama_embedding`, lines 150-159)

The external call `ollama.embeddings(model=..., prompt=text)` either returns
a vector or raises; the loop appends the vector on success and `None` on
exception.  The backend is modelled as a function `embed : String → Option
(List ℚ)` (`none` = the call raised). -/

/-- Embedding of `get_ollama_embedding` (lines 150-159): one backend call per
text, a failure yields `none` at that position only. -/
def get_ollama_embedding (embed : String → Option (List ℚ))
    (text_batch : List String) : List (Option (List ℚ)) :=
  text_batch.map embed

/-- The metadata dict built at lines 234-241 for a chunk whose embedding
succeeded. -/
structure EntryMetadata where
  source_file : String
  chunk_type : String
  original_chunk_text_preview : String
  start_line : Nat
  end_line : Nat
deriving DecidableEq, Repr

/-- Lines 234-241: `text[:200].replace('\n', ' ')` and the remaining
metadata fields (line-block chunks always carry `start_line`/`end_line`). -/
def mkMetadata (c : Chunk) : EntryMetadata :=
  ⟨c.file_path, c.type,
    String.mk ((c.text.data.take 200).map (fun ch => if ch = '\n' then ' ' else ch)),
    c.start_line, c.end_line⟩

/-- The pairing loop of lines 232-242: `for i, chunk_data in
enumerate(chunk_data_list): if embeddings[i]: results.append(...)`.
Python truthiness: `None` and the empty list are both falsy, so a chunk is
kept only when its embedding is `some v` with `v ≠ []`. -/
def pairEmbeddings : List Chunk → List (Option (List ℚ)) → List (List ℚ × EntryMetadata)
  | [], _ => []
  | _, [] => []
  | c :: cs, e :: es =>
    match e with
    | some v => if v = [] then pairEmbeddings cs es else (v, mkMetadata c) :: pairEmbeddings cs es
    | none => pairEmbeddings cs es

/-- The embed-and-filter stage of `process_file_for_chunks_and_embeddings`
(lines 226-243), starting from the chunk list the chunker produced:
`texts_to_embed = [cd['text'] for cd in chunk_data_list]`, then
`embeddings = get_ollama_embedding(texts_to_embed)`, then the pairing loop. -/
def process_file_for_chunks_and_embeddings (embed : String → Option (List ℚ))
    (chunk_data_list : List Chunk) : List (List ℚ × EntryMetadata) :=
  pairEmbeddings chunk_data_list
    (get_ollama_embedding embed (chunk_data_list.map (fun cd => cd.text)))

/-! ## Document ids and the collection (`index_codebase`, lines 386-408)

Line 408 appends an id built from the literal prefix, the store's pre-run
entry count in decimal, an underscore, and the per-run counter
(the length of the id list so far) in decimal.  `natToString` is the embedding of Python's decimal formatting of a
non-negative integer. -/

/-- Decimal digits of `n`, most significant first, by repeated division;
structural fuel (`n` itself suffices since `n / 10 < n` for `n > 0`). -/
def natDigitsAux : Nat → Nat → List Char
  | 0, _ => []
  | fuel + 1, n =>
    if n = 0 then [] else natDigitsAux fuel (n / 10) ++ [Nat.digitChar (n % 10)]

/-- Python decimal formatting of a non-negative integer `n`. -/
def natToString (n : Nat) : String :=
  if n = 0 then "0" else String.mk (natDigitsAux n n)

/-- The id string of line 408: the literal prefix, the offset's digits, an
underscore, and the counter's digits. -/
def makeDocId (doc_id_offset counter : Nat) : String :=
  "doc_" ++ natToString doc_id_offset ++ "_" ++ natToString counter

/-- The ids assigned during one run that persists `n` chunks: the counter
`len(all_ids)` takes the values `0, 1, ..., n-1`. -/
def runIds (doc_id_offset n : Nat) : List String :=
  (List.range n).map (makeDocId doc_id_offset)

/-- What the script observes of one ChromaDB entry: its id and its
`source_file` metadata. -/
structure StoreEntry where
  id : String
  source_file : String
deriving DecidableEq, Repr

/-- Deletion of every stale file's entries by their source-file metadata
(lines 352-366). -/
def deleteWhere (entries : List StoreEntry) (stale_files : List String) :
    List StoreEntry :=
  entries.filter (fun e => decide (e.source_file ∉ stale_files))

/-- One `update`-mode run against the collection, reduced to what decides id
assignment: delete the stale files' entries (lines 352-366), take
`doc_id_offset = collection.count()` (lines 387-391, after the deletions),
assign ids with the per-run counter (line 408) and add the new entries
(lines 418-427).  `new_chunk_files` lists the `source_file` of each chunk
that will be persisted, in order.  Returns the new collection contents and
the ids assigned by this run. -/
def updateRunStore (entries : List StoreEntry) (stale_files : List String)
    (new_chunk_files : List String) : List StoreEntry × List String :=
  let remaining := deleteWhere entries stale_files
  let doc_id_offset := remaining.length
  let ids := runIds doc_id_offset new_chunk_files.length
  (remaining ++ List.zipWith StoreEntry.mk ids new_chunk_files, ids)

/-! ## Index metadata and staleness (`load_last_index_meta`, lines 251-259,
and `index_codebase`, lines 276-345) -/

/-- The sidecar record `last_index_meta.json`: the fields the algorithm
reads (`version` is written but never consulted). -/
structure StoredMeta where
  timestamp : ℚ
  project_path : String
deriving DecidableEq

/-- Embedding of `load_last_index_meta` (lines 251-259): an absent (or undecodable) meta
file yields a default record with timestamp `0` and project path
`"unknown"`. -/
def load_last_index_meta (stored : Option StoredMeta) : StoredMeta :=
  stored.getD ⟨0, "unknown"⟩

/-- The `--mode` argument of `index_codebase`. -/
inductive Mode where
  | full
  | update
deriving DecidableEq

/-- Lines 291-295: `last_index_timestamp = 0`, overwritten with the stored
timestamp only when the stored `project_path` equals the resolved project
dir and the mode is not `full`. -/
def effective_last_index_timestamp (mode : Mode) (stored : Option StoredMeta)
    (project_dir : String) : ℚ :=
  if (load_last_index_meta stored).project_path = project_dir ∧ mode ≠ Mode.full
  then (load_last_index_meta stored).timestamp
  else 0

/-- A candidate file as seen by the scan loop: its path and its
`stat().st_mtime`. -/
structure CandidateFile where
  path : String
  mtime : ℚ
deriving DecidableEq

/-- The outcome of the selection phase of `index_codebase`: which candidate
files go to `files_to_process_map`, and whether the collection's existing
entries were cleared. -/
structure RunPlan where
  files_to_process : List CandidateFile
  store_cleared : Bool
deriving DecidableEq

/-- The selection phase of `index_codebase` (lines 291-345): in `full` mode
every candidate is processed and the collection is cleared (lines 301-316);
in `update` mode a candidate is processed iff
`mtime > last_index_timestamp` (lines 338-343) and nothing is cleared. -/
def index_codebase_plan (mode : Mode) (stored : Option StoredMeta)
    (project_dir : String) (candidate_files : List CandidateFile) : RunPlan :=
  let ts := effective_last_index_timestamp mode stored project_dir
  match mode with
  | Mode.full => ⟨candidate_files, true⟩
  | Mode.update => ⟨candidate_files.filter (fun f => decide (ts < f.mtime)), false⟩

/-! ## Retrieval (`query_and_get_context_files`, lines 450-575) -/

/-- The over-fetch count of line 473: five chunks per requested file. -/
def num_chunks_to_retrieve (top_k_files : Nat) : Nat := top_k_files * 5

/-- One returned chunk as the scoring loop sees it: the `source_file`
metadata (absent when the metadata dict is missing the key, line 521) and
the distance (`none` when missing, `None`, or not convertible to float —
lines 529-541 treat all three the same way). -/
structure QueryItem where
  source_file : Option String
  distance : Option ℚ
deriving DecidableEq

/-- The per-chunk score of lines 529-541: `1.0 / (distance + 1e-6)` for a
usable distance, else the rank fallback `float(num_chunks_to_retrieve - i)`
(a non-negative int subtraction in Python only when `i ≤ n`; modelled in ℚ,
where it is exact in all cases). -/
def chunkScore (n i : Nat) (distance : Option ℚ) : ℚ :=
  match distance with
  | some d => 1 / (d + 1 / 1000000)
  | none => (n : ℚ) - (i : ℚ)

/-- The score accumulation of lines 543-547 over an insertion-ordered dict
(lines 543-547): add to the existing entry, or append a fresh one. -/
def addScore : List (String × ℚ) → String → ℚ → List (String × ℚ)
  | [], f, s => [(f, s)]
  | (g, t) :: rest, f, s =>
    if g = f then (g, t + s) :: rest else (g, t) :: addScore rest f s

/-- The scoring loop of lines 519-557 restricted to `file_scores`: iterate
the returned items in order with their rank `i`, skip items without a
`source_file`, and accumulate `chunkScore`. -/
def collectScores (n : Nat) : List QueryItem → Nat → List (String × ℚ) → List (String × ℚ)
  | [], _, acc => acc
  | item :: rest, i, acc =>
    match item.source_file with
    | none => collectScores n rest (i + 1) acc
    | some f => collectScores n rest (i + 1) (addScore acc f (chunkScore n i item.distance))

/-- The total score the loop intends for file `f`: the sum, over the items
whose `source_file` is `f`, of their per-chunk scores at their rank. -/
def sumScoresFor (n : Nat) (f : String) : List QueryItem → Nat → ℚ
  | [], _ => 0
  | item :: rest, i =>
    (if item.source_file = some f then chunkScore n i item.distance else 0) +
      sumScoresFor n f rest (i + 1)

/-- The comparison `sorted(file_scores.items(), key=lambda item: item[1],
reverse=True)` sorts by: score of the left item at least that of the right. -/
def scoreGe (a b : String × ℚ) : Prop := b.2 ≤ a.2

instance : DecidableRel scoreGe := fun a b => inferInstanceAs (Decidable (b.2 ≤ a.2))

instance : IsTotal (String × ℚ) scoreGe := ⟨fun a b => le_total b.2 a.2⟩

instance : IsTrans (String × ℚ) scoreGe := ⟨fun _ _ _ h1 h2 => le_trans h2 h1⟩

/-- Embedding of the sort at line 559: the aggregated per-file scores, sorted by
descending score (a stable sort, like Python's). -/
def sorted_files (n : Nat) (items : List QueryItem) : List (String × ℚ) :=
  List.insertionSort scoreGe (collectScores n items 0 [])

/-- The truncation at line 562: the top-ranked files with
their accumulated scores. -/
def topFiles (top_k_files : Nat) (items : List QueryItem) : List (String × ℚ) :=
  (sorted_files (num_chunks_to_retrieve top_k_files) items).take top_k_files

/-- Verification helper: the first score recorded for `f` in the
insertion-ordered dict, `none` when `f` has no entry. -/
def lookupScore : List (String × ℚ) → String → Option ℚ
  | [], _ => none
  | (g, t) :: rest, f => if g = f then some t else lookupScore rest f

/-- Verification helper: whether some returned item carries `source_file = f`. -/
def hasFile (items : List QueryItem) (f : String) : Bool :=
  items.any (fun item => decide (item.source_file = some f))

/-- Verification helper: the numeric value of a most-significant-first list
of decimal digit characters (used to invert `natDigitsAux`). -/
def decDigitVal (c : Char) : Nat := c.toNat - 48

/-- Verification helper: fold a decimal digit string back into a number. -/
def decVal (l : List Char) : Nat :=
  l.foldl (fun a c => a * 10 + decDigitVal c) 0

/-- What `query_and_get_context_files` hands back to its caller: the ranked
file list, plus whether an error signal (`print_json_output("error", ...)`)
was emitted. -/
structure QueryResult where
  files : List (String × ℚ)
  errored : Bool
deriving DecidableEq

/-- Embedding of `query_and_get_context_files` (lines 450-575) reduced to its control
flow: the project-match guard of lines 454-457, the query-embedding guard of
lines 466-469, then scoring and ranking.  `db_exists` is
`Path(chroma_db_path_obj).exists()`; `embed_ok` is whether the query
embedding succeeded; `items` are the returned chunks in result order. -/
def query_and_get_context_files (db_exists : Bool) (stored : Option StoredMeta)
    (project_dir : String) (embed_ok : Bool) (top_k_files : Nat)
    (items : List QueryItem) : QueryResult :=
  if ¬ db_exists ∨ (load_last_index_meta stored).project_path ≠ project_dir then
    ⟨[], true⟩
  else if ¬ embed_ok then ⟨[], true⟩
  else ⟨topFiles top_k_files items, false⟩

/-! ## Theorems -/

/-- C1: in `update` mode a candidate is selected for re-chunking iff its
mtime strictly exceeds the effective last-index timestamp — the stored
timestamp when the stored `project_path` equals the resolved project root,
`0` when the meta record is absent or names a different project — and the
collection is not cleared. -/
theorem C1_update_staleness (stored : Option StoredMeta) (project_dir : String)
    (candidate_files : List CandidateFile) (f : CandidateFile) :
    (f ∈ (index_codebase_plan Mode.update stored project_dir candidate_files).files_to_process ↔
      f ∈ candidate_files ∧
        (match stored with
          | some m => if m.project_path = project_dir then m.timestamp else 0
          | none => 0) < f.mtime) ∧
    (index_codebase_plan Mode.update stored project_dir candidate_files).store_cleared = false := by
  have hts : effective_last_index_timestamp Mode.update stored project_dir =
      (match stored with
        | some m => if m.project_path = project_dir then m.timestamp else 0
        | none => 0) := by
    cases stored with
    | none => simp [effective_last_index_timestamp, load_last_index_meta]
    | some m => simp [effective_last_index_timestamp, load_last_index_meta]
  refine ⟨?_, rfl⟩
  simp only [index_codebase_plan, hts, List.mem_filter, decide_eq_true_eq]

/-- C3: with a finite non-negative distance present, the similarity score
`1 / (distance + 1e-6)` is strictly decreasing in the distance, so the
closer chunk scores strictly higher. -/
theorem C3_score_monotonicity (n i j : Nat) (d1 d2 : ℚ) (h0 : 0 ≤ d1) (h12 : d1 < d2) :
    chunkScore n i (some d1) > chunkScore n j (some d2) := by
  simp only [chunkScore, gt_iff_lt]
  have h1 : 0 < d1 + 1 / 1000000 := by
    have : (0 : ℚ) < 1 / 1000000 := by norm_num
    linarith
  have h2 : d1 + 1 / 1000000 < d2 + 1 / 1000000 := by linarith
  exact one_div_lt_one_div_of_lt h1 h2

/-- Witness for C3 at distances 0 and 1. -/
theorem C3_score_monotonicity_witness :
    0 ≤ (0 : ℚ) ∧ (0 : ℚ) < 1 ∧
      chunkScore 50 0 (some 0) > chunkScore 50 1 (some 1) :=
  ⟨le_refl 0, zero_lt_one, C3_score_monotonicity 50 0 1 0 1 (le_refl 0) zero_lt_one⟩

/-- C9: the rank-based fallback score is `requestedCount - rank` with
`requestedCount = k_files * 5`; it is strictly positive whenever
`rank < requestedCount` and strictly decreasing in the rank. -/
theorem C9_fallback_score (k i i1 i2 : Nat) :
    num_chunks_to_retrieve k = k * 5 ∧
    (i < num_chunks_to_retrieve k → 0 < chunkScore (num_chunks_to_retrieve k) i none) ∧
    (i1 < i2 →
      chunkScore (num_chunks_to_retrieve k) i1 none >
        chunkScore (num_chunks_to_retrieve k) i2 none) := by
  refine ⟨rfl, ?_, ?_⟩
  · intro h
    have hq : (i : ℚ) < (num_chunks_to_retrieve k : ℚ) := by exact_mod_cast h
    simp only [chunkScore]
    linarith
  · intro h
    have hq : (i1 : ℚ) < (i2 : ℚ) := by exact_mod_cast h
    simp only [chunkScore, gt_iff_lt]
    linarith

/-- Witness for C9 at `k_files = 1`, ranks 0 and 1. -/
theorem C9_fallback_score_witness :
    0 < chunkScore (num_chunks_to_retrieve 1) 0 none ∧
      chunkScore (num_chunks_to_retrieve 1) 0 none >
        chunkScore (num_chunks_to_retrieve 1) 1 none :=
  ⟨(C9_fallback_score 1 0 0 1).2.1 (by decide), (C9_fallback_score 1 0 0 1).2.2 (by decide)⟩

/-- C5: when the sidecar meta record is absent (and the queried root is a
real resolved path, hence not the sentinel `"unknown"`) or names a different
project, retrieval returns the empty file list together with the error
signal; the embedding is total, so no exception escapes, and no file of the
mismatched project is returned. -/
theorem C5_project_mismatch_query (db_exists : Bool) (stored : Option StoredMeta)
    (project_dir : String) (embed_ok : Bool) (top_k_files : Nat)
    (items : List QueryItem)
    (hmismatch : (stored = none ∧ project_dir ≠ "unknown") ∨
      (∃ m, stored = some m ∧ m.project_path ≠ project_dir)) :
    query_and_get_context_files db_exists stored project_dir embed_ok top_k_files items =
      ⟨[], true⟩ := by
  have hne : (load_last_index_meta stored).project_path ≠ project_dir := by
    rcases hmismatch with ⟨h1, h2⟩ | ⟨m, hm, hne⟩
    · subst h1
      simpa [load_last_index_meta] using Ne.symm h2
    · subst hm
      simpa [load_last_index_meta] using hne
  simp [query_and_get_context_files, hne]

/-- Witness for C5: absent meta record, project root `"/proj"`. -/
theorem C5_project_mismatch_query_witness :
    ((none : Option StoredMeta) = none ∧ "/proj" ≠ "unknown") ∧
      query_and_get_context_files true none "/proj" true 10 [] = ⟨[], true⟩ :=
  ⟨⟨rfl, by decide⟩,
    C5_project_mismatch_query true none "/proj" true 10 [] (Or.inl ⟨rfl, by decide⟩)⟩

/-- Helper for C6: a pair surviving the `if embeddings[i]:` filter comes
from a chunk whose embedding call returned a non-empty vector. -/
theorem pairEmbeddings_mem (embed : String → Option (List ℚ)) :
    ∀ (cs : List Chunk) (v : List ℚ) (m : EntryMetadata),
      (v, m) ∈ pairEmbeddings cs (get_ollama_embedding embed (cs.map (fun cd => cd.text))) →
      ∃ c, c ∈ cs ∧ embed c.text = some v ∧ v ≠ [] := by
  intro cs
  induction cs with
  | nil =>
    intro v m h
    simp [pairEmbeddings, get_ollama_embedding] at h
  | cons c cs ih =>
    intro v m h
    cases he : embed c.text with
    | none =>
      have hstep :
          pairEmbeddings (c :: cs)
              (get_ollama_embedding embed ((c :: cs).map (fun cd => cd.text))) =
            pairEmbeddings cs (get_ollama_embedding embed (cs.map (fun cd => cd.text))) := by
        simp [pairEmbeddings, get_ollama_embedding, he]
      rw [hstep] at h
      obtain ⟨d, hd, hde, hdne⟩ := ih v m h
      exact ⟨d, List.mem_cons_of_mem _ hd, hde, hdne⟩
    | some w =>
      by_cases hw : w = []
      · have hstep :
            pairEmbeddings (c :: cs)
                (get_ollama_embedding embed ((c :: cs).map (fun cd => cd.text))) =
              pairEmbeddings cs (get_ollama_embedding embed (cs.map (fun cd => cd.text))) := by
          simp [pairEmbeddings, get_ollama_embedding, he, hw]
        rw [hstep] at h
        obtain ⟨d, hd, hde, hdne⟩ := ih v m h
        exact ⟨d, List.mem_cons_of_mem _ hd, hde, hdne⟩
      · have hstep :
            pairEmbeddings (c :: cs)
                (get_ollama_embedding embed ((c :: cs).map (fun cd => cd.text))) =
              (w, mkMetadata c) ::
                pairEmbeddings cs (get_ollama_embedding embed (cs.map (fun cd => cd.text))) := by
          simp [pairEmbeddings, get_ollama_embedding, he, hw]
        rw [hstep] at h
        rcases List.mem_cons.mp h with heq | hmem
        · have hv : v = w := congrArg Prod.fst heq
          exact ⟨c, List.mem_cons_self c cs, by rw [he, hv], by rw [hv]; exact hw⟩
        · obtain ⟨d, hd, hde, hdne⟩ := ih v m hmem
          exact ⟨d, List.mem_cons_of_mem _ hd, hde, hdne⟩

/-- C6: the batch embedding returns one result per input text, in order,
with `none` marking exactly the failed positions; and every persisted pair
comes from a chunk whose embedding succeeded (non-empty vector), so no
entry is stored with a null vector. -/
theorem C6_embed_batch_isolation (embed : String → Option (List ℚ))
    (texts : List String) (chunk_data_list : List Chunk) :
    (get_ollama_embedding embed texts).length = texts.length ∧
    (∀ i, i < texts.length →
      (get_ollama_embedding embed texts).getD i none = embed (texts.getD i "")) ∧
    (∀ v m, (v, m) ∈ process_file_for_chunks_and_embeddings embed chunk_data_list →
      ∃ c, c ∈ chunk_data_list ∧ embed c.text = some v ∧ v ≠ []) := by
  refine ⟨by simp [get_ollama_embedding], ?_, ?_⟩
  · intro i hi
    induction texts generalizing i with
    | nil => simp at hi
    | cons t ts ihts =>
      cases i with
      | zero => rfl
      | succ j =>
        have hj : j < ts.length := by simpa using hi
        exact ihts j hj
  · intro v m h
    exact pairEmbeddings_mem embed chunk_data_list v m h

/-- Witness for C6: two texts, the second one failing; two chunks, the
second one dropped. -/
theorem C6_embed_batch_isolation_witness :
    (0 < ([("x" : String), "bad"]).length) ∧
    (([1], mkMetadata ⟨"x", "f", "line_block", 0, 0⟩) ∈
      process_file_for_chunks_and_embeddings
        (fun t => if t = "bad" then none else some [1])
        [⟨"x", "f", "line_block", 0, 0⟩, ⟨"bad", "f", "line_block", 1, 1⟩]) ∧
    (get_ollama_embedding (fun t => if t = "bad" then none else some [1])
        ["x", "bad"]).getD 0 none =
      (fun t => if t = "bad" then none else some ([1] : List ℚ)) (["x", "bad"].getD 0 "") ∧
    (∃ c, c ∈ [(⟨"x", "f", "line_block", 0, 0⟩ : Chunk), ⟨"bad", "f", "line_block", 1, 1⟩] ∧
      (fun t => if t = "bad" then none else some ([1] : List ℚ)) c.text = some [1] ∧
      ([1] : List ℚ) ≠ []) := by
  have hmem : ([1], mkMetadata ⟨"x", "f", "line_block", 0, 0⟩) ∈
      process_file_for_chunks_and_embeddings
        (fun t => if t = "bad" then none else some [1])
        [⟨"x", "f", "line_block", 0, 0⟩, ⟨"bad", "f", "line_block", 1, 1⟩] :=
    List.mem_cons_self _ _
  refine ⟨by decide, hmem, ?_, ?_⟩
  · exact (C6_embed_batch_isolation (fun t => if t = "bad" then none else some [1])
      ["x", "bad"] []).2.1 0 (by decide)
  · exact (C6_embed_batch_isolation (fun t => if t = "bad" then none else some [1])
      [] [⟨"x", "f", "line_block", 0, 0⟩, ⟨"bad", "f", "line_block", 1, 1⟩]).2.2
      [1] (mkMetadata ⟨"x", "f", "line_block", 0, 0⟩) hmem

/-- Helper for C7: `decVal` over an appended final digit. -/
theorem decVal_append_singleton (l : List Char) (c : Char) :
    decVal (l ++ [c]) = decVal l * 10 + decDigitVal c := by
  simp [decVal, List.foldl_append]

/-- Helper for C7: `Nat.digitChar` round-trips through `decDigitVal` on
decimal digits. -/
theorem decDigitVal_digitChar : ∀ d, d < 10 → decDigitVal (Nat.digitChar d) = d := by
  decide

/-- Helper for C7: `decVal` inverts `natDigitsAux` when the fuel suffices. -/
theorem decVal_natDigitsAux : ∀ fuel n, n ≤ fuel → decVal (natDigitsAux fuel n) = n := by
  intro fuel
  induction fuel with
  | zero =>
    intro n hn
    have : n = 0 := Nat.le_zero.mp hn
    subst this
    rfl
  | succ fuel ih =>
    intro n hn
    by_cases h0 : n = 0
    · subst h0
      rfl
    · have hdiv : n / 10 ≤ fuel := by
        have := Nat.div_lt_self (Nat.pos_of_ne_zero h0) (by norm_num : 1 < 10)
        omega
      have hmod : n % 10 < 10 := Nat.mod_lt _ (by norm_num)
      rw [natDigitsAux, if_neg h0, decVal_append_singleton, ih (n / 10) hdiv,
        decDigitVal_digitChar (n % 10) hmod]
      omega

/-- Helper for C7: Python's decimal rendering of a natural number is
injective. -/
theorem natToString_injective : Function.Injective natToString := by
  intro m n h
  by_cases hm : m = 0 <;> by_cases hn : n = 0
  · omega
  · exfalso
    have h0 : natToString m = "0" := by rw [natToString, if_pos hm]
    have hns : natToString n = String.mk (natDigitsAux n n) := by
      rw [natToString, if_neg hn]
    have hdata : (['0'] : List Char) = natDigitsAux n n := by
      have := h0 ▸ hns ▸ h
      exact congrArg String.data this
    have : decVal ['0'] = decVal (natDigitsAux n n) := congrArg decVal hdata
    rw [decVal_natDigitsAux n n (le_refl n)] at this
    exact hn this.symm
  · exfalso
    have h0 : natToString n = "0" := by rw [natToString, if_pos hn]
    have hms : natToString m = String.mk (natDigitsAux m m) := by
      rw [natToString, if_neg hm]
    have hdata : (['0'] : List Char) = natDigitsAux m m := by
      have := h0 ▸ hms ▸ h.symm
      exact congrArg String.data this
    have : decVal ['0'] = decVal (natDigitsAux m m) := congrArg decVal hdata
    rw [decVal_natDigitsAux m m (le_refl m)] at this
    exact hm this.symm
  · have hms : natToString m = String.mk (natDigitsAux m m) := by
      rw [natToString, if_neg hm]
    have hns : natToString n = String.mk (natDigitsAux n n) := by
      rw [natToString, if_neg hn]
    have hdata : natDigitsAux m m = natDigitsAux n n :=
      congrArg String.data (hms ▸ hns ▸ h)
    have := congrArg decVal hdata
    rw [decVal_natDigitsAux m m (le_refl m), decVal_natDigitsAux n n (le_refl n)] at this
    exact this

/-- Helper for C7: within one run the offset is fixed, so the id string
determines the counter. -/
theorem makeDocId_inj_right (o : Nat) {c1 c2 : Nat}
    (h : makeDocId o c1 = makeDocId o c2) : c1 = c2 := by
  have hd := congrArg String.data h
  simp only [makeDocId, String.data_append, List.append_assoc] at hd
  have h1 := List.append_cancel_left hd
  have h2 := List.append_cancel_left h1
  have h3 := List.append_cancel_left h2
  exact natToString_injective (congrArg String.mk h3)

/-- C7 (amended): the ids assigned within one run — the pre-run store count
rendered with the running counter values `0, ..., n-1` — are pairwise
distinct. -/
theorem C7_ids_distinct_within_run (doc_id_offset n : Nat) :
    (runIds doc_id_offset n).Nodup := by
  unfold runIds
  refine List.Nodup.map_on ?_ (List.nodup_range n)
  intro x _ y _ hxy
  exact makeDocId_inj_right doc_id_offset hxy

/-- C7 counterexample: ids are reused across runs.  Run 1 indexes one chunk
of file `A` (offset 0, id `doc_0_0`).  Run 2 indexes one chunk of file `B`
(nothing deleted, offset 1, id `doc_1_0`).  Run 3 re-indexes file `A`: its
old entry is deleted, so the offset is again 1 and the run assigns
`doc_1_0` a second time — the very id of the still-live entry for `B`. -/
theorem C7_counterexample_id_reuse :
    (updateRunStore (updateRunStore [] [] ["A"]).1 ["B"] ["B"]).2 = ["doc_1_0"] ∧
    (updateRunStore (updateRunStore (updateRunStore [] [] ["A"]).1 ["B"] ["B"]).1
        ["A"] ["A"]).2 = ["doc_1_0"] ∧
    (⟨"doc_1_0", "B"⟩ : StoreEntry) ∈
      (updateRunStore (updateRunStore [] [] ["A"]).1 ["B"] ["B"]).1 := by
  decide

/-- Helper: membership in the conditionally-emitted singleton of the chunk
loop. -/
theorem mem_emitted {c : Chunk} {t fp : String} {i L : Nat}
    (h : c ∈ (if t = "" then ([] : List Chunk) else [⟨t, fp, "line_block", i, i + L - 1⟩])) :
    t ≠ "" ∧ c = ⟨t, fp, "line_block", i, i + L - 1⟩ := by
  by_cases ht : t = ""
  · rw [if_pos ht] at h
    cases h
  · rw [if_neg ht] at h
    exact ⟨ht, List.mem_singleton.mp h⟩

/-- Helper: a non-empty stripped window has at least one line. -/
theorem one_le_window_of_strip_ne {lines : List String} {i maxL : Nat}
    (ht : pyStrip (String.intercalate "\n" ((lines.drop i).take maxL)) ≠ "") :
    1 ≤ ((lines.drop i).take maxL).length := by
  by_contra hlt
  have h0 : ((lines.drop i).take maxL).length = 0 := by omega
  have he : (lines.drop i).take maxL = [] := List.length_eq_zero.mp h0
  rw [he] at ht
  exact ht rfl

/-- Helper: taking the window's own length out of the line list returns the
window itself. -/
theorem take_window_length {lines : List String} {i maxL : Nat} :
    (lines.drop i).take (((lines.drop i).take maxL).length) = (lines.drop i).take maxL := by
  have hle : ((lines.drop i).take maxL).length ≤ maxL := List.length_take_le _ _
  have h1 : ((lines.drop i).take maxL).take (((lines.drop i).take maxL).length) =
      (lines.drop i).take (((lines.drop i).take maxL).length) := by
    rw [List.take_take]
    congr 1
    omega
  rw [← h1, List.take_length]

/-- Helper for C8: every chunk the loop emits carries as its text exactly
the whitespace-stripped join of the lines from its `start_line` to its
`end_line` inclusive. -/
theorem chunkLoop_text_slice (lines : List String) (fp : String) (minL maxL ov : Nat) :
    ∀ fuel i c, c ∈ chunkLoop lines fp minL maxL ov fuel i →
      c.text = pyStrip (String.intercalate "\n"
        ((lines.drop c.start_line).take (c.end_line + 1 - c.start_line))) := by
  intro fuel
  induction fuel with
  | zero =>
    intro i c h
    simp [chunkLoop] at h
  | succ fuel ih =>
    intro i c h
    simp only [chunkLoop] at h
    by_cases hi : i < lines.length
    · rw [if_pos hi] at h
      by_cases hskip : ((lines.drop i).take maxL).length < minL ∧
          i + ((lines.drop i).take maxL).length < lines.length
      · rw [if_pos hskip] at h
        exact ih _ c h
      · rw [if_neg hskip] at h
        have hemit : c ∈ (if pyStrip (String.intercalate "\n" ((lines.drop i).take maxL)) = ""
              then ([] : List Chunk)
              else [⟨pyStrip (String.intercalate "\n" ((lines.drop i).take maxL)), fp,
                "line_block", i, i + ((lines.drop i).take maxL).length - 1⟩]) →
            c.text = pyStrip (String.intercalate "\n"
              ((lines.drop c.start_line).take (c.end_line + 1 - c.start_line))) := by
          intro hm
          obtain ⟨ht, hc⟩ := mem_emitted hm
          have hL1 : 1 ≤ ((lines.drop i).take maxL).length := one_le_window_of_strip_ne ht
          subst hc
          have harith : i + ((lines.drop i).take maxL).length - 1 + 1 - i =
              ((lines.drop i).take maxL).length := by omega
          simp only [harith]
          rw [take_window_length]
        by_cases hend : lines.length ≤ i + ((lines.drop i).take maxL).length
        · rw [if_pos hend] at h
          exact hemit h
        · rw [if_neg hend] at h
          rcases List.mem_append.mp h with hm | hm
          · exact hemit hm
          · exact ih _ c hm
    · rw [if_neg hi] at h
      cases h

/-- C8 (amended, helper applied at the top level): every chunk of
`chunk_code_by_lines` satisfies the stripped-slice text invariant. -/
theorem chunk_text_eq_stripped_slice (lines : List String) (fp : String)
    (minL maxL ov : Nat) (c : Chunk)
    (h : c ∈ chunk_code_by_lines lines fp minL maxL ov) :
    c.text = pyStrip (String.intercalate "\n"
      ((lines.drop c.start_line).take (c.end_line + 1 - c.start_line))) :=
  chunkLoop_text_slice lines fp minL maxL ov (lines.length + 1) 0 c h

/-- Witness for C8 (amended) at a concrete five-line file. -/
theorem chunk_text_eq_stripped_slice_witness :
    (⟨"a\nb\nc\nd\ne", "f", "line_block", 0, 4⟩ : Chunk) ∈
        chunk_code_by_lines [" a", "b", "c", "d", "e"] "f" 5 30 3 ∧
      (⟨"a\nb\nc\nd\ne", "f", "line_block", 0, 4⟩ : Chunk).text =
        pyStrip (String.intercalate "\n"
          (([" a", "b", "c", "d", "e"].drop 0).take (4 + 1 - 0))) :=
  ⟨by decide,
    chunk_text_eq_stripped_slice [" a", "b", "c", "d", "e"] "f" 5 30 3
      ⟨"a\nb\nc\nd\ne", "f", "line_block", 0, 4⟩ (by decide)⟩

/-- C8 counterexample: the chunk text is the *stripped* join of the covered
lines, not the file content between `start_line` and `end_line` verbatim —
a leading blank or whitespace inside the window is removed.  On the
five-line file `[" a", "b", "c", "d", "e"]` the single emitted chunk covers
lines 0-4 but its text drops the leading space of line 0. -/
theorem C8_counterexample_strip :
    chunk_code_by_lines [" a", "b", "c", "d", "e"] "f" 5 30 3 =
        [⟨"a\nb\nc\nd\ne", "f", "line_block", 0, 4⟩] ∧
      String.intercalate "\n" (([" a", "b", "c", "d", "e"].drop 0).take (4 + 1 - 0)) =
        " a\nb\nc\nd\ne" ∧
      ("a\nb\nc\nd\ne" : String) ≠ " a\nb\nc\nd\ne" := by
  refine ⟨by decide, by decide, by decide⟩

/-- Helper for C10: with `minL ≤ maxL` the skip branch's guard is never
satisfied, so the loop coincides with its skip-free variant. -/
theorem chunkLoop_eq_noSkip (lines : List String) (fp : String)
    (minL maxL ov : Nat) (hminmax : minL ≤ maxL) :
    ∀ fuel i, chunkLoop lines fp minL maxL ov fuel i =
      chunkNoSkipLoop lines fp maxL ov fuel i := by
  intro fuel
  induction fuel with
  | zero => intro i; rfl
  | succ fuel ih =>
    intro i
    simp only [chunkLoop, chunkNoSkipLoop]
    by_cases hi : i < lines.length
    · rw [if_pos hi, if_pos hi]
      have hL : ((lines.drop i).take maxL).length = min maxL (lines.length - i) := by
        simp [List.length_take, List.length_drop]
      have hskip : ¬(((lines.drop i).take maxL).length < minL ∧
          i + ((lines.drop i).take maxL).length < lines.length) := by
        intro hand
        omega
      rw [if_neg hskip]
      by_cases hend : lines.length ≤ i + ((lines.drop i).take maxL).length
      · rw [if_pos hend, if_pos hend]
      · rw [if_neg hend, if_neg hend, ih]
    · rw [if_neg hi, if_neg hi]

/-- Helper for C10: every emitted chunk's window either has exactly `maxL`
lines or reaches the end of the file. -/
theorem chunkLoop_window_shape (lines : List String) (fp : String)
    (minL maxL ov : Nat) :
    ∀ fuel i c, c ∈ chunkLoop lines fp minL maxL ov fuel i →
      c.end_line + 1 - c.start_line = maxL ∨ c.end_line + 1 = lines.length := by
  intro fuel
  induction fuel with
  | zero =>
    intro i c h
    simp [chunkLoop] at h
  | succ fuel ih =>
    intro i c h
    simp only [chunkLoop] at h
    by_cases hi : i < lines.length
    · rw [if_pos hi] at h
      by_cases hskip : ((lines.drop i).take maxL).length < minL ∧
          i + ((lines.drop i).take maxL).length < lines.length
      · rw [if_pos hskip] at h
        exact ih _ c h
      · rw [if_neg hskip] at h
        have hemit : c ∈ (if pyStrip (String.intercalate "\n" ((lines.drop i).take maxL)) = ""
              then ([] : List Chunk)
              else [⟨pyStrip (String.intercalate "\n" ((lines.drop i).take maxL)), fp,
                "line_block", i, i + ((lines.drop i).take maxL).length - 1⟩]) →
            c.end_line + 1 - c.start_line = maxL ∨ c.end_line + 1 = lines.length := by
          intro hm
          obtain ⟨ht, hc⟩ := mem_emitted hm
          have hL1 : 1 ≤ ((lines.drop i).take maxL).length := one_le_window_of_strip_ne ht
          have hL : ((lines.drop i).take maxL).length = min maxL (lines.length - i) := by
            simp [List.length_take, List.length_drop]
          subst hc
          simp only
          omega
        by_cases hend : lines.length ≤ i + ((lines.drop i).take maxL).length
        · rw [if_pos hend] at h
          exact hemit h
        · rw [if_neg hend] at h
          rcases List.mem_append.mp h with hm | hm
          · exact hemit hm
          · exact ih _ c hm
    · rw [if_neg hi] at h
      cases h

/-- C10: whenever `minLines ≤ maxLines` (as with the defaults 5 and 30), the
mid-stream skip branch of the line chunker is unreachable — the chunker
equals its skip-free variant, which emits every window whose stripped text
is non-empty — and every emitted window has exactly `maxLines` lines or
reaches end-of-file. -/
theorem C10_skip_branch_unreachable (lines : List String) (fp : String)
    (minL maxL ov : Nat) (hminmax : minL ≤ maxL) :
    chunk_code_by_lines lines fp minL maxL ov = chunkNoSkip lines fp maxL ov ∧
    ∀ c ∈ chunk_code_by_lines lines fp minL maxL ov,
      c.end_line + 1 - c.start_line = maxL ∨ c.end_line + 1 = lines.length := by
  constructor
  · exact chunkLoop_eq_noSkip lines fp minL maxL ov hminmax (lines.length + 1) 0
  · intro c hc
    exact chunkLoop_window_shape lines fp minL maxL ov (lines.length + 1) 0 c hc

/-- Witness for C10 at the default parameters on a concrete 40-line file. -/
theorem C10_skip_branch_unreachable_witness :
    MIN_CHUNK_SIZE_LINES_FALLBACK ≤ MAX_CHUNK_SIZE_LINES_FALLBACK ∧
      chunk_code_by_lines (List.replicate 40 "a") "f" 5 30 3 =
        chunkNoSkip (List.replicate 40 "a") "f" 30 3 :=
  ⟨by decide,
    (C10_skip_branch_unreachable (List.replicate 40 "a") "f" 5 30 3 (by decide)).1⟩

/-- Helper: one emitting loop iteration that does not reach end-of-file. -/
theorem chunkLoop_emit_cont (lines : List String) (fp : String)
    (minL maxL ov fuel i : Nat)
    (hi : i < lines.length)
    (hskip : ¬(((lines.drop i).take maxL).length < minL ∧
      i + ((lines.drop i).take maxL).length < lines.length))
    (hcont : ¬ lines.length ≤ i + ((lines.drop i).take maxL).length) :
    chunkLoop lines fp minL maxL ov (fuel + 1) i =
      (if pyStrip (String.intercalate "\n" ((lines.drop i).take maxL)) = "" then []
        else [⟨pyStrip (String.intercalate "\n" ((lines.drop i).take maxL)), fp, "line_block",
          i, i + ((lines.drop i).take maxL).length - 1⟩]) ++
        chunkLoop lines fp minL maxL ov fuel (i + max 1 (maxL - ov)) := by
  simp only [chunkLoop]
  rw [if_pos hi, if_neg hskip, if_neg hcont]

/-- Helper: one emitting loop iteration that reaches end-of-file. -/
theorem chunkLoop_emit_last (lines : List String) (fp : String)
    (minL maxL ov fuel i : Nat)
    (hi : i < lines.length)
    (hskip : ¬(((lines.drop i).take maxL).length < minL ∧
      i + ((lines.drop i).take maxL).length < lines.length))
    (hend : lines.length ≤ i + ((lines.drop i).take maxL).length) :
    chunkLoop lines fp minL maxL ov (fuel + 1) i =
      (if pyStrip (String.intercalate "\n" ((lines.drop i).take maxL)) = "" then []
        else [⟨pyStrip (String.intercalate "\n" ((lines.drop i).take maxL)), fp, "line_block",
          i, i + ((lines.drop i).take maxL).length - 1⟩]) := by
  simp only [chunkLoop]
  rw [if_pos hi, if_neg hskip, if_pos hend]

/-- C2: on a 40-line file whose two windows have non-blank content, the
fallback chunker with `maxLines = 30`, `minLines = 5`, `overlapLines = 3`
(advance step `max(1, 30-3) = 27`) emits exactly two chunks: lines 0-29,
then lines 27-39, in that order. -/
theorem C2_forty_line_file (lines : List String) (fp : String)
    (hlen : lines.length = 40)
    (h1 : pyStrip (String.intercalate "\n" (lines.take 30)) ≠ "")
    (h2 : pyStrip (String.intercalate "\n" (lines.drop 27)) ≠ "") :
    chunk_code_by_lines lines fp 5 30 3 =
      [⟨pyStrip (String.intercalate "\n" (lines.take 30)), fp, "line_block", 0, 29⟩,
        ⟨pyStrip (String.intercalate "\n" (lines.drop 27)), fp, "line_block", 27, 39⟩] := by
  have l30 : ((lines.drop 0).take 30).length = 30 := by
    simp [List.length_take, hlen]
  have l30t : (lines.take 30).length = 30 := by
    simp [List.length_take, hlen]
  have l13 : ((lines.drop 27).take 30).length = 13 := by
    simp [List.length_take, hlen]
  have l13d : (lines.drop 27).length = 13 := by
    simp [hlen]
  have e30 : (lines.drop 0).take 30 = lines.take 30 := by rw [List.drop_zero]
  have e13 : (lines.drop 27).take 30 = lines.drop 27 := by
    apply List.take_of_length_le
    rw [l13d]
    norm_num
  unfold chunk_code_by_lines
  rw [hlen]
  rw [chunkLoop_emit_cont lines fp 5 30 3 40 0 (by omega)
    (by rw [List.drop_zero, l30t, hlen]; norm_num)
    (by rw [List.drop_zero, l30t, hlen]; norm_num)]
  rw [e30, if_neg h1, l30t]
  rw [show (0 + max 1 (30 - 3) : Nat) = 27 from rfl, show (0 + 30 - 1 : Nat) = 29 from rfl]
  rw [show (40 : Nat) = 39 + 1 from rfl]
  rw [chunkLoop_emit_last lines fp 5 30 3 39 27 (by omega) (by rw [l13, hlen]; norm_num)
    (by rw [l13, hlen])]
  rw [e13, if_neg h2, l13d]
  rfl

/-- Witness for C2 at a concrete 40-line file of non-blank lines. -/
theorem C2_forty_line_file_witness :
    (List.replicate 40 "a").length = 40 ∧
      chunk_code_by_lines (List.replicate 40 "a") "f" 5 30 3 =
        [⟨pyStrip (String.intercalate "\n" ((List.replicate 40 "a").take 30)), "f",
            "line_block", 0, 29⟩,
          ⟨pyStrip (String.intercalate "\n" ((List.replicate 40 "a").drop 27)), "f",
            "line_block", 27, 39⟩] :=
  ⟨by decide,
    C2_forty_line_file (List.replicate 40 "a") "f" (by decide) (by decide) (by decide)⟩

/-- Helper for C4: `addScore` records the incremented score under its key. -/
theorem lookupScore_addScore_self : ∀ (acc : List (String × ℚ)) (f : String) (s : ℚ),
    lookupScore (addScore acc f s) f = some ((lookupScore acc f).getD 0 + s) := by
  intro acc
  induction acc with
  | nil =>
    intro f s
    simp [addScore, lookupScore]
  | cons p rest ih =>
    intro f s
    obtain ⟨g, t⟩ := p
    by_cases hgf : g = f
    · subst hgf
      simp [addScore, lookupScore]
    · simp [addScore, lookupScore, hgf, ih]

/-- Helper for C4: `addScore` leaves other keys' scores unchanged. -/
theorem lookupScore_addScore_ne : ∀ (acc : List (String × ℚ)) (f : String) (s : ℚ)
    (g : String), g ≠ f → lookupScore (addScore acc f s) g = lookupScore acc g := by
  intro acc
  induction acc with
  | nil =>
    intro f s g hgf
    simp [addScore, lookupScore, Ne.symm hgf]
  | cons p rest ih =>
    intro f s g hgf
    obtain ⟨k, t⟩ := p
    by_cases hkf : k = f
    · subst hkf
      simp [addScore, lookupScore, Ne.symm hgf]
    · by_cases hkg : k = g
      · subst hkg
        simp [addScore, lookupScore, hkf]
      · simp [addScore, lookupScore, hkf, hkg, ih f s g hgf]

/-- Helper for C4: an absent key means no entry in the dict. -/
theorem lookupScore_eq_none_iff : ∀ (acc : List (String × ℚ)) (f : String),
    lookupScore acc f = none ↔ f ∉ acc.map Prod.fst := by
  intro acc
  induction acc with
  | nil =>
    intro f
    simp [lookupScore]
  | cons p rest ih =>
    intro f
    obtain ⟨g, t⟩ := p
    by_cases hgf : g = f
    · subst hgf
      simp [lookupScore]
    · simp [lookupScore, hgf, ih, Ne.symm hgf]

/-- Helper for C4: the keys of `addScore acc f s` are those of `acc`, with
`f` appended when it was absent. -/
theorem keys_addScore : ∀ (acc : List (String × ℚ)) (f : String) (s : ℚ),
    (addScore acc f s).map Prod.fst =
      if f ∈ acc.map Prod.fst then acc.map Prod.fst else acc.map Prod.fst ++ [f] := by
  intro acc
  induction acc with
  | nil =>
    intro f s
    simp [addScore]
  | cons p rest ih =>
    intro f s
    obtain ⟨g, t⟩ := p
    by_cases hgf : g = f
    · subst hgf
      simp [addScore]
    · simp only [addScore, if_neg hgf, List.map_cons, ih]
      by_cases hf : f ∈ rest.map Prod.fst
      · simp [hf, Ne.symm hgf]
      · simp [hf, Ne.symm hgf]

/-- Helper for C4: `addScore` preserves distinctness of the dict keys. -/
theorem nodup_keys_addScore (acc : List (String × ℚ)) (f : String) (s : ℚ)
    (h : (acc.map Prod.fst).Nodup) : ((addScore acc f s).map Prod.fst).Nodup := by
  rw [keys_addScore]
  by_cases hf : f ∈ acc.map Prod.fst
  · rw [if_pos hf]
    exact h
  · rw [if_neg hf]
    rw [List.nodup_append]
    exact ⟨h, List.nodup_singleton f, by simpa using hf⟩

/-- Helper for C4: the scoring loop preserves distinctness of the dict
keys. -/
theorem nodup_keys_collectScores (n : Nat) : ∀ (items : List QueryItem) (i : Nat)
    (acc : List (String × ℚ)), (acc.map Prod.fst).Nodup →
    ((collectScores n items i acc).map Prod.fst).Nodup := by
  intro items
  induction items with
  | nil =>
    intro i acc h
    simpa [collectScores] using h
  | cons item rest ih =>
    intro i acc h
    cases hsf : item.source_file with
    | none =>
      have hstep : collectScores n (item :: rest) i acc = collectScores n rest (i + 1) acc := by
        simp [collectScores, hsf]
      rw [hstep]
      exact ih _ _ h
    | some g =>
      have hstep : collectScores n (item :: rest) i acc =
          collectScores n rest (i + 1) (addScore acc g (chunkScore n i item.distance)) := by
        simp [collectScores, hsf]
      rw [hstep]
      exact ih _ _ (nodup_keys_addScore acc g _ h)

/-- Helper for C4: with distinct keys, membership determines the looked-up
score. -/
theorem lookupScore_eq_of_mem (f : String) (s : ℚ) : ∀ (acc : List (String × ℚ)),
    (acc.map Prod.fst).Nodup → (f, s) ∈ acc → lookupScore acc f = some s := by
  intro acc
  induction acc with
  | nil =>
    intro _ hmem
    cases hmem
  | cons p rest ih =>
    intro hnod hmem
    obtain ⟨g, t⟩ := p
    rw [List.map_cons, List.nodup_cons] at hnod
    rcases List.mem_cons.mp hmem with heq | hmem2
    · cases heq
      simp [lookupScore]
    · by_cases hgf : g = f
      · subst hgf
        exfalso
        have : g ∈ rest.map Prod.fst := List.mem_map.mpr ⟨(g, s), hmem2, rfl⟩
        exact hnod.1 this
      · simp [lookupScore, hgf, ih hnod.2 hmem2]

/-- Helper for C4: the central invariant of the scoring loop — the score
recorded for `f` is its score in the accumulator plus the sum of the
per-chunk scores of the remaining items carrying `source_file = f`. -/
theorem lookupScore_collectScores (n : Nat) (f : String) :
    ∀ (items : List QueryItem) (i : Nat) (acc : List (String × ℚ)),
      lookupScore (collectScores n items i acc) f =
        match lookupScore acc f with
        | some t => some (t + sumScoresFor n f items i)
        | none => if hasFile items f then some (sumScoresFor n f items i) else none := by
  intro items
  induction items with
  | nil =>
    intro i acc
    cases h : lookupScore acc f with
    | none => simp [collectScores, sumScoresFor, hasFile, h]
    | some t => simp [collectScores, sumScoresFor, hasFile, h]
  | cons item rest ih =>
    intro i acc
    cases hsf : item.source_file with
    | none =>
      have hstep : collectScores n (item :: rest) i acc = collectScores n rest (i + 1) acc := by
        simp [collectScores, hsf]
      have hsum : sumScoresFor n f (item :: rest) i = sumScoresFor n f rest (i + 1) := by
        simp [sumScoresFor, hsf]
      have hhas : hasFile (item :: rest) f = hasFile rest f := by
        simp [hasFile, hsf]
      rw [hstep, ih, hsum, hhas]
    | some g =>
      by_cases hgf : g = f
      · subst hgf
        have hstep : collectScores n (item :: rest) i acc =
            collectScores n rest (i + 1) (addScore acc g (chunkScore n i item.distance)) := by
          simp [collectScores, hsf]
        have hsum : sumScoresFor n g (item :: rest) i =
            chunkScore n i item.distance + sumScoresFor n g rest (i + 1) := by
          simp [sumScoresFor, hsf]
        rw [hstep, ih, lookupScore_addScore_self, hsum]
        cases h : lookupScore acc g with
        | none => simp [h, hasFile, hsf]
        | some t => simp [h, add_assoc]
      · have hstep : collectScores n (item :: rest) i acc =
            collectScores n rest (i + 1) (addScore acc g (chunkScore n i item.distance)) := by
          simp [collectScores, hsf]
        have hsum : sumScoresFor n f (item :: rest) i = sumScoresFor n f rest (i + 1) := by
          simp [sumScoresFor, hsf, hgf]
        have hhas : hasFile (item :: rest) f = hasFile rest f := by
          simp [hasFile, hsf, hgf]
        rw [hstep, ih, lookupScore_addScore_ne acc g _ f (fun h => hgf h.symm), hsum, hhas]

/-- C4: retrieval's per-file score is the sum of the per-chunk scores of the
returned chunks carrying that `source_file`; the files are sorted by
accumulated score in descending order; and at most the first `k_files` of
that sorted list are returned. -/
theorem C4_score_aggregation (top_k_files : Nat) (items : List QueryItem) :
    (∀ f s, (f, s) ∈ sorted_files (num_chunks_to_retrieve top_k_files) items →
      s = sumScoresFor (num_chunks_to_retrieve top_k_files) f items 0) ∧
    List.Sorted scoreGe (sorted_files (num_chunks_to_retrieve top_k_files) items) ∧
    topFiles top_k_files items =
      (sorted_files (num_chunks_to_retrieve top_k_files) items).take top_k_files ∧
    (topFiles top_k_files items).length ≤ top_k_files := by
  refine ⟨?_, List.sorted_insertionSort scoreGe _, rfl, List.length_take_le _ _⟩
  intro f s hmem
  have hmem2 : (f, s) ∈ collectScores (num_chunks_to_retrieve top_k_files) items 0 [] :=
    ((List.perm_insertionSort scoreGe _).mem_iff).mp hmem
  have hnod : ((collectScores (num_chunks_to_retrieve top_k_files) items 0 []).map
      Prod.fst).Nodup :=
    nodup_keys_collectScores _ items 0 [] (by simp)
  have hlook := lookupScore_eq_of_mem f s _ hnod hmem2
  rw [lookupScore_collectScores] at hlook
  have hnone : lookupScore ([] : List (String × ℚ)) f = none := rfl
  rw [hnone] at hlook
  by_cases hh : hasFile items f
  · rw [if_pos hh] at hlook
    exact (Option.some_inj.mp hlook).symm
  · rw [if_neg hh] at hlook
    cases hlook

/-- Witness for C4: two returned chunks of the same file accumulate both
scores. -/
theorem C4_score_aggregation_witness :
    (("a", chunkScore (num_chunks_to_retrieve 2) 0 none +
        chunkScore (num_chunks_to_retrieve 2) 1 none) ∈
      sorted_files (num_chunks_to_retrieve 2) [⟨some "a", none⟩, ⟨some "a", none⟩]) ∧
    chunkScore (num_chunks_to_retrieve 2) 0 none + chunkScore (num_chunks_to_retrieve 2) 1 none =
      sumScoresFor (num_chunks_to_retrieve 2) "a" [⟨some "a", none⟩, ⟨some "a", none⟩] 0 := by
  have hmem : ("a", chunkScore (num_chunks_to_retrieve 2) 0 none +
      chunkScore (num_chunks_to_retrieve 2) 1 none) ∈
      sorted_files (num_chunks_to_retrieve 2) [⟨some "a", none⟩, ⟨some "a", none⟩] := by
    show ("a", chunkScore (num_chunks_to_retrieve 2) 0 none +
        chunkScore (num_chunks_to_retrieve 2) 1 none) ∈
      [("a", chunkScore (num_chunks_to_retrieve 2) 0 none +
        chunkScore (num_chunks_to_retrieve 2) 1 none)]
    exact List.mem_singleton.mpr rfl
  exact ⟨hmem,
    (C4_score_aggregation 2 [⟨some "a", none⟩, ⟨some "a", none⟩]).1 "a" _ hmem⟩

end PromptBuilder

